import Mathlib

/-!
Verification of the bitboard and attack-table core of the diogenes-v2 chess
engine.  Bitboards are modelled as natural numbers holding a 64-bit value
(explicit `% 2 ^ 64` wherever the Rust u64 semantics truncate), squares as an
inductive type with 64 constructors mirroring the `Square` enum, and fallible
steps (panics from `unwrap`, `expect` and `todo!`) as `Option` results where
`none` marks the panic.
-/

/-! ## Board constants (src/src/board.rs) -/

def LIGHT_SQUARES : Nat := 0x55aa55aa55aa55aa

def DARK_SQUARES : Nat := 0xaa55aa55aa55aa55

def ALL_SQUARES : Nat := LIGHT_SQUARES ||| DARK_SQUARES

/-- The u64 bitwise-not operator (`!x` in Rust) on 64-bit values. -/
def unot (x : Nat) : Nat := x ^^^ (2 ^ 64 - 1)

def A_FILE : Nat := 0x0101010101010101

def AB_FILE : Nat := 0x0303030303030303

def GH_FILE : Nat := 0xc0c0c0c0c0c0c0c0

def H_FILE : Nat := 0x8080808080808080

def NOT_A_FILE : Nat := unot A_FILE

def NOT_H_FILE : Nat := unot H_FILE

def NOT_AB_FILE : Nat := unot AB_FILE

def NOT_GH_FILE : Nat := unot GH_FILE

/-! ## Directions (src/src/direction.rs) -/

/-- The eight sliding-ray directions of `RayDirection`, in declaration order
(N, NE, E, SE, S, SW, W, NW), which is also the `strum::EnumIter` iteration
order. -/
inductive RayDirection where
  | N | NE | E | SE | S | SW | W | NW
deriving DecidableEq, Repr

/-- The eight knight-leap directions of `KnightDirection`, in declaration
order (NNE, NEE, SEE, SSE, SSW, SWW, NWW, NNW). -/
inductive KnightDirection where
  | NNE | NEE | SEE | SSE | SSW | SWW | NWW | NNW
deriving DecidableEq, Repr

/-- Signed one-step bit-shift of a ray direction, as in `Direction::shift`
(src/src/direction.rs) and the enum discriminants of `RayDirection`. -/
def RayDirection.get_shift : RayDirection → Int
  | .N => 8
  | .S => -8
  | .NE => 9
  | .SW => -9
  | .E => 1
  | .W => -1
  | .NW => 7
  | .SE => -7

/-- Wraparound mask of a ray direction, as in `Direction::mask`
(src/src/direction.rs): east-moving shifts drop squares that wrapped onto the
A file, west-moving shifts drop squares that wrapped onto the H file. -/
def RayDirection.get_wraparound_mask : RayDirection → Nat
  | .E | .NE | .SE => NOT_A_FILE
  | .W | .NW | .SW => NOT_H_FILE
  | .N | .S => ALL_SQUARES

/-- Signed bit-shift of a knight direction, as in `Direction::shift`
(src/src/direction.rs) and the enum discriminants of `KnightDirection`. -/
def KnightDirection.get_shift : KnightDirection → Int
  | .NNE => 17
  | .SSW => -17
  | .NEE => 10
  | .SWW => -10
  | .SEE => -6
  | .NWW => 6
  | .SSE => -15
  | .NNW => 15

/-- Wraparound mask of a knight direction, as in `Direction::mask`
(src/src/direction.rs). -/
def KnightDirection.get_wraparound_mask : KnightDirection → Nat
  | .NNE | .SSE => NOT_A_FILE
  | .NNW | .SSW => NOT_H_FILE
  | .NEE | .SEE => NOT_AB_FILE
  | .NWW | .SWW => NOT_GH_FILE

/-- Modelled from the spec: the `Direction` trait with `get_shift` and
`get_wraparound_mask` is referenced by `Bitboard::fill_one` but its
declaration and impls are not under src/; per the spec each direction carries
a signed bit-shift amount and a wraparound mask, with the values given by
`Direction::shift` and `Direction::mask` in src/src/direction.rs. -/
class Direction (α : Type) where
  get_shift : α → Int
  get_wraparound_mask : α → Nat

instance : Direction RayDirection :=
  ⟨RayDirection.get_shift, RayDirection.get_wraparound_mask⟩

instance : Direction KnightDirection :=
  ⟨KnightDirection.get_shift, KnightDirection.get_wraparound_mask⟩

/-- `Direction::BISHOP_DIRS` (src/src/direction.rs). -/
def BISHOP_DIRS : List RayDirection := [.NE, .NW, .SE, .SW]

/-- `Direction::ROOK_DIRS` (src/src/direction.rs). -/
def ROOK_DIRS : List RayDirection := [.N, .S, .E, .W]

/-- `RayDirection::iter()` order: the position each ray direction occupies in
`Attacks::new`'s `RayDirection::iter().enumerate()` loop.  Only arguments
0..7 arise (the `rays` array has exactly 8 slots). -/
def posToRayDir : Nat → RayDirection
  | 0 => .N
  | 1 => .NE
  | 2 => .E
  | 3 => .SE
  | 4 => .S
  | 5 => .SW
  | 6 => .W
  | _ => .NW

/-- `KnightDirection::iter()` order. -/
def knightIterList : List KnightDirection :=
  [.NNE, .NEE, .SEE, .SSE, .SSW, .SWW, .NWW, .NNW]

/-- `RayDirection::iter()` order as a list. -/
def rayIterList : List RayDirection :=
  [.N, .NE, .E, .SE, .S, .SW, .W, .NW]

/-! ## Bitboard primitives (src/src/bitboard.rs) -/

/-- The `Shl<isize>` impl on `Bitboard`: shift left for a positive amount and
right for a non-positive one; the u64 left shift truncates mod `2 ^ 64`. -/
def bshl (x : Nat) (s : Int) : Nat :=
  if 0 < s then (x <<< s.toNat) % 2 ^ 64 else x >>> (-s).toNat

/-- `Bitboard::fill_one`: one flood-fill step; the union of the board with its
one-step translation in the direction, wraparound squares masked off. -/
def fill_one {α : Type} [Direction α] (bb : Nat) (d : α) : Nat :=
  bb ||| (bshl bb (Direction.get_shift d) &&& Direction.get_wraparound_mask d)

/-- Loop body of `Bitboard::fill_all`: `flood |= flood.fill_one(dir)` run `n`
times. -/
def fill_all_aux {α : Type} [Direction α] (d : α) : Nat → Nat → Nat
  | 0, flood => flood
  | n + 1, flood => fill_all_aux d n (flood ||| fill_one flood d)

/-- `Bitboard::fill_all`: Dumb7-style flood fill, `for _ in 0..=7` giving 8
iterations of `flood |= flood.fill_one(dir)`. -/
def fill_all {α : Type} [Direction α] (bb : Nat) (d : α) : Nat :=
  fill_all_aux d 8 bb

def DEBRUIJN_MAGIC_VAL : Nat := 0x03f79d71b4cb0a89

def DEBRUIJN_LOOKUP : List Int :=
  [0, 47, 1, 56, 48, 27, 2, 60, 57, 49, 41, 37, 28, 16, 3, 61, 54, 58, 35,
   52, 50, 42, 21, 44, 38, 32, 29, 23, 17, 11, 4, 62, 46, 55, 26, 59, 40, 36,
   15, 53, 34, 51, 20, 43, 31, 22, 10, 45, 25, 39, 14, 33, 19, 30, 9, 24, 13,
   18, 8, 12, 7, 6, 5, 63]

/-- The shared De Bruijn step of both bitscans: wrapping-multiply the key by
the magic constant, take the top 6 bits, and look them up in the table.  The
index is always below 64, so the `getD` default is never produced. -/
def debruijnStep (x : Nat) : Int :=
  DEBRUIJN_LOOKUP.getD ((x * DEBRUIJN_MAGIC_VAL % 2 ^ 64) >>> 58) 0

/-- `Bitboard::bitscan_forward`: -1 for the empty board, otherwise the De
Bruijn lookup on `val ^ (val - 1)`. -/
def bitscan_forward (bb : Nat) : Int :=
  if bb = 0 then -1 else debruijnStep (bb ^^^ (bb - 1))

/-- One `val |= val >> k` propagation step of `Bitboard::bitscan_reverse`. -/
def orStep (k a : Nat) : Nat := a ||| a >>> k

/-- The six propagation steps of `Bitboard::bitscan_reverse`, smearing the
most significant set bit down through all lower positions. -/
def orDown (bb : Nat) : Nat :=
  orStep 32 (orStep 16 (orStep 8 (orStep 4 (orStep 2 (orStep 1 bb)))))

/-- `Bitboard::bitscan_reverse`: -1 for the empty board, otherwise the De
Bruijn lookup on the OR-propagated value. -/
def bitscan_reverse (bb : Nat) : Int :=
  if bb = 0 then -1 else debruijnStep (orDown bb)

/-- `Bitboard::flip_vertical` first byte-swap constant `k1`. -/
def FLIP_K1 : Nat := 0x00FF00FF00FF00FF

/-- `Bitboard::flip_vertical` second swap constant `k2`. -/
def FLIP_K2 : Nat := 0x0000FFFF0000FFFF

/-- Plain u64 left shift (`<<` on u64), truncating mod `2 ^ 64`. -/
def wshl (x k : Nat) : Nat := (x <<< k) % 2 ^ 64

/-- First line of `Bitboard::flip_vertical`: swap adjacent bytes. -/
def swap8 (x : Nat) : Nat := ((x >>> 8) &&& FLIP_K1) ||| wshl (x &&& FLIP_K1) 8

/-- Second line of `Bitboard::flip_vertical`: swap adjacent 16-bit words. -/
def swap16 (x : Nat) : Nat := ((x >>> 16) &&& FLIP_K2) ||| wshl (x &&& FLIP_K2) 16

/-- `u64::rotate_left(32)`. -/
def rotl32 (x : Nat) : Nat := wshl x 32 ||| x >>> 32

/-- `Bitboard::flip_vertical`: mirror the ranks via two swap steps and a
32-bit rotation. -/
def flip_vertical (x : Nat) : Nat := rotl32 (swap16 (swap8 x))

/-! ## Squares (src/src/square.rs) -/

/-- The `Square` enum: LERF mapping, bit 0 = A1 through bit 63 = H8, in
declaration order. -/
inductive Square where
  | A1 | B1 | C1 | D1 | E1 | F1 | G1 | H1
  | A2 | B2 | C2 | D2 | E2 | F2 | G2 | H2
  | A3 | B3 | C3 | D3 | E3 | F3 | G3 | H3
  | A4 | B4 | C4 | D4 | E4 | F4 | G4 | H4
  | A5 | B5 | C5 | D5 | E5 | F5 | G5 | H5
  | A6 | B6 | C6 | D6 | E6 | F6 | G6 | H6
  | A7 | B7 | C7 | D7 | E7 | F7 | G7 | H7
  | A8 | B8 | C8 | D8 | E8 | F8 | G8 | H8
deriving DecidableEq, Repr

/-- The discriminant of a `Square`, as produced by the derived
`num_derive::ToPrimitive` impl (declaration-order index 0..63). -/
def Square.toIndex : Square → Nat
  | .A1 => 0
  | .B1 => 1
  | .C1 => 2
  | .D1 => 3
  | .E1 => 4
  | .F1 => 5
  | .G1 => 6
  | .H1 => 7
  | .A2 => 8
  | .B2 => 9
  | .C2 => 10
  | .D2 => 11
  | .E2 => 12
  | .F2 => 13
  | .G2 => 14
  | .H2 => 15
  | .A3 => 16
  | .B3 => 17
  | .C3 => 18
  | .D3 => 19
  | .E3 => 20
  | .F3 => 21
  | .G3 => 22
  | .H3 => 23
  | .A4 => 24
  | .B4 => 25
  | .C4 => 26
  | .D4 => 27
  | .E4 => 28
  | .F4 => 29
  | .G4 => 30
  | .H4 => 31
  | .A5 => 32
  | .B5 => 33
  | .C5 => 34
  | .D5 => 35
  | .E5 => 36
  | .F5 => 37
  | .G5 => 38
  | .H5 => 39
  | .A6 => 40
  | .B6 => 41
  | .C6 => 42
  | .D6 => 43
  | .E6 => 44
  | .F6 => 45
  | .G6 => 46
  | .H6 => 47
  | .A7 => 48
  | .B7 => 49
  | .C7 => 50
  | .D7 => 51
  | .E7 => 52
  | .F7 => 53
  | .G7 => 54
  | .H7 => 55
  | .A8 => 56
  | .B8 => 57
  | .C8 => 58
  | .D8 => 59
  | .E8 => 60
  | .F8 => 61
  | .G8 => 62
  | .H8 => 63

/-- `Square::to_usize` via the derived `ToPrimitive`: a fieldless enum
always yields `Some(discriminant)`. -/
def Square.toUsize (sq : Square) : Option Nat := some sq.toIndex

/-- The derived `num_derive::FromPrimitive` impl on `Square`: indices 0..63
map to the matching variant, anything else to `None`. -/
def squareOfIndex : Nat → Option Square
  | 0 => some .A1
  | 1 => some .B1
  | 2 => some .C1
  | 3 => some .D1
  | 4 => some .E1
  | 5 => some .F1
  | 6 => some .G1
  | 7 => some .H1
  | 8 => some .A2
  | 9 => some .B2
  | 10 => some .C2
  | 11 => some .D2
  | 12 => some .E2
  | 13 => some .F2
  | 14 => some .G2
  | 15 => some .H2
  | 16 => some .A3
  | 17 => some .B3
  | 18 => some .C3
  | 19 => some .D3
  | 20 => some .E3
  | 21 => some .F3
  | 22 => some .G3
  | 23 => some .H3
  | 24 => some .A4
  | 25 => some .B4
  | 26 => some .C4
  | 27 => some .D4
  | 28 => some .E4
  | 29 => some .F4
  | 30 => some .G4
  | 31 => some .H4
  | 32 => some .A5
  | 33 => some .B5
  | 34 => some .C5
  | 35 => some .D5
  | 36 => some .E5
  | 37 => some .F5
  | 38 => some .G5
  | 39 => some .H5
  | 40 => some .A6
  | 41 => some .B6
  | 42 => some .C6
  | 43 => some .D6
  | 44 => some .E6
  | 45 => some .F6
  | 46 => some .G6
  | 47 => some .H6
  | 48 => some .A7
  | 49 => some .B7
  | 50 => some .C7
  | 51 => some .D7
  | 52 => some .E7
  | 53 => some .F7
  | 54 => some .G7
  | 55 => some .H7
  | 56 => some .A8
  | 57 => some .B8
  | 58 => some .C8
  | 59 => some .D8
  | 60 => some .E8
  | 61 => some .F8
  | 62 => some .G8
  | 63 => some .H8
  | _ => none

/-- `Square::from_i32` (derived `FromPrimitive`): negative values and values
above 63 give `None`; in `sliding_piece_attacks` a `None` hits the
`.expect(\x22Invalid square!\x22)` panic, modelled downstream as `none`. -/
def squareFromInt (pos : Int) : Option Square :=
  if pos < 0 then none else squareOfIndex pos.toNat

/-- `Square::bitboard` (the `From<Square> for Bitboard` conversion in
src/src/square.rs): `1 << i` on u64 for the discriminant `i`. -/
def Square.bitboard (sq : Square) : Nat := (1 <<< sq.toIndex) % 2 ^ 64

/-! ## Attack tables (src/src/attacks.rs) -/

/-- The per-square table layout shared by every `AttackSet` built in
`Attacks::new`: the loop `for sq in Square::iter().take(63)` writes entries
for discriminants 0..62 only, so index 63 (H8) keeps the `Bitboard::default()`
value 0.  Indices above 63 never occur (the array has 64 slots and every
lookup is bounds-checked in `AttackSet.get`). -/
def mkTable (f : Square → Nat) (i : Nat) : Nat :=
  match squareOfIndex i with
  | some sq => if i ≤ 62 then f sq else 0
  | none => 0

/-- The king entry built for one square: `king[sq] |= bb.fill_one(&dir) & !bb`
accumulated over `RayDirection::iter()`. -/
def kingBuild (sq : Square) : Nat :=
  rayIterList.foldl (fun acc d => acc ||| (fill_one sq.bitboard d &&& unot sq.bitboard)) 0

/-- The knight entry built for one square: the loop body is the plain
assignment `knight[sq] = bb.fill_all(&kdir) & !bb`, so every iteration
overwrites the previous one. -/
def knightBuild (sq : Square) : Nat :=
  knightIterList.foldl (fun _acc kd => fill_all sq.bitboard kd &&& unot sq.bitboard) 0

/-- The white-pawn entry built for one square:
`white_pawn[sq] |= bb.fill_one(&NE)` then `|= bb.fill_one(&NW)`. -/
def whitePawnBuild (sq : Square) : Nat :=
  (0 ||| fill_one sq.bitboard RayDirection.NE) ||| fill_one sq.bitboard RayDirection.NW

/-- The black-pawn entry built for one square:
`black_pawn[sq] |= bb.fill_one(&SE)` then `|= bb.fill_one(&SW)`. -/
def blackPawnBuild (sq : Square) : Nat :=
  (0 ||| fill_one sq.bitboard RayDirection.SE) ||| fill_one sq.bitboard RayDirection.SW

/-- The ray entry built for one square at iteration position `di` of
`RayDirection::iter().enumerate()`:
`rays[dir_idx][sq] = bb.fill_all(&dir) & !bb`. -/
def rayBuild (di : Nat) (sq : Square) : Nat :=
  fill_all sq.bitboard (posToRayDir di) &&& unot sq.bitboard

/-- `Attacks::new().king` as a 64-slot table indexed by discriminant. -/
def kingTable : Nat → Nat := mkTable kingBuild

/-- `Attacks::new().knight` as a 64-slot table indexed by discriminant. -/
def knightTable : Nat → Nat := mkTable knightBuild

/-- `Attacks::new().white_pawn` as a 64-slot table indexed by discriminant. -/
def whitePawnTable : Nat → Nat := mkTable whitePawnBuild

/-- `Attacks::new().black_pawn` as a 64-slot table indexed by discriminant. -/
def blackPawnTable : Nat → Nat := mkTable blackPawnBuild

/-- `Attacks::new().rays[di]` as a 64-slot table indexed by discriminant. -/
def raysTable (di : Nat) : Nat → Nat := mkTable (rayBuild di)

/-- The `Index<Square> for AttackSet` impl: `sq.to_usize().unwrap()` (the
`unwrap` panic is `none`) followed by the bounds-checked array access (an
out-of-range index would also panic). -/
def AttackSet.get (table : Nat → Nat) (sq : Square) : Option Nat :=
  match sq.toUsize with
  | none => none
  | some i => if i < 64 then some (table i) else none

/-- `Attacks::pawns`: the body is `todo!(...)`, which panics unconditionally
before producing a value. -/
def pawns (_sq : Square) (_blockers : Nat) : Option Nat := none

/-- `Attacks::king`: `self.king[sq] & !danger_squares`. -/
def king (sq : Square) (danger_squares : Nat) : Option Nat :=
  (AttackSet.get kingTable sq).map fun k => k &&& unot danger_squares

/-- `Attacks::knight`: `self.knight[sq] & !blockers`. -/
def knight (sq : Square) (blockers : Nat) : Option Nat :=
  (AttackSet.get knightTable sq).map fun k => k &&& unot blockers

/-- The loop of `Attacks::sliding_piece_attacks` over
`dirs.iter().enumerate()`.  `ray` is `self.rays[dir_idx][sq]` (the `Index`
impl inlined: the square discriminant is in bounds by construction); the scan
choice per direction is the hard-coded match of the source; `none` models the
`.expect(\x22Invalid square!\x22)` panic when `Square::from_i32` gets a value
outside 0..63, in particular the -1 sentinel of an empty scan. -/
def sliding_piece_attacks_aux (sqIdx blockers : Nat) :
    List RayDirection → Nat → Nat → Option Nat
  | [], _di, acc => some acc
  | d :: rest, di, acc =>
    let ray := raysTable di sqIdx
    let pos : Int :=
      match d with
      | .E | .N | .NE | .NW => bitscan_reverse (ray &&& blockers)
      | .W | .S | .SE | .SW => bitscan_forward (ray &&& blockers)
    match squareFromInt pos with
    | none => none
    | some block =>
      sliding_piece_attacks_aux sqIdx blockers rest (di + 1)
        (acc ||| (ray &&& unot (raysTable di block.toIndex)))

/-- `Attacks::sliding_piece_attacks`. -/
def sliding_piece_attacks (sq : Square) (blockers : Nat)
    (dirs : List RayDirection) : Option Nat :=
  sliding_piece_attacks_aux sq.toIndex blockers dirs 0 0

/-- `Attacks::bishop`. -/
def bishop (sq : Square) (blockers : Nat) : Option Nat :=
  sliding_piece_attacks sq blockers BISHOP_DIRS

/-- `Attacks::rook`. -/
def rook (sq : Square) (blockers : Nat) : Option Nat :=
  sliding_piece_attacks sq blockers ROOK_DIRS

/-- `Attacks::queen`: the union of the rook and bishop queries; a panic in
either propagates. -/
def queen (sq : Square) (blockers : Nat) : Option Nat :=
  match rook sq blockers, bishop sq blockers with
  | some r, some b => some (r ||| b)
  | _, _ => none

/-! ## Spec-side geometry used to state ray properties -/

/-- File displacement of one step in a ray direction (spec compass reading:
east increases the file). -/
def fileDelta : RayDirection → Int
  | .N => 0
  | .NE => 1
  | .E => 1
  | .SE => 1
  | .S => 0
  | .SW => -1
  | .W => -1
  | .NW => -1

/-- Rank displacement of one step in a ray direction (spec compass reading:
north increases the rank). -/
def rankDelta : RayDirection → Int
  | .N => 1
  | .NE => 1
  | .E => 0
  | .SE => -1
  | .S => -1
  | .SW => -1
  | .W => 0
  | .NW => 1


/-- Spec-side set of the squares strictly between a square and the board edge
along a ray direction: the squares reached after k = 1..7 unit steps of the
direction that still have file and rank on the board. -/
def raySpecSet (sq : Square) (d : RayDirection) : Nat :=
  (List.range 8).foldl (fun acc k =>
    let f : Int := (sq.toIndex % 8 : Nat) + k * fileDelta d
    let r : Int := (sq.toIndex / 8 : Nat) + k * rankDelta d
    if 1 ≤ k ∧ 0 ≤ f ∧ f < 8 ∧ 0 ≤ r ∧ r < 8 then acc ||| (1 <<< (8 * r + f).toNat)
    else acc) 0

/-- Index of the least significant set bit (0 for the empty board). -/
def lsbIdx (v : Nat) : Nat :=
  if h : v = 0 then 0
  else if v % 2 = 1 then 0
  else lsbIdx (v / 2) + 1
termination_by v
decreasing_by exact Nat.div_lt_self (Nat.pos_of_ne_zero h) Nat.one_lt_two

/-! ## Claims about the attack queries and table construction -/

/-- C1: the sliding-piece correctness invariant fails on the code.  On the
spec example itself — a rook on D4 with blockers exactly on D1 and D7 — the
query does not return the claimed attack set at all: the second loop
iteration pairs direction S with `rays[1]`, which construction filled with
the NE ray (position 1 of `RayDirection::iter()`), the NE ray holds no
blocker, the scan yields the -1 sentinel, and `Square::from_i32(-1)` hits the
`expect` panic, modelled as `none`. -/
theorem rook_d4_blockers_panics :
    rook Square.D4 ((1 <<< 3) ||| (1 <<< 51)) = none := by decide

/-- C2: the queries do not return normally when a ray holds no blocker.  With
an empty blocker board the very first rook direction (N) scans an empty
intersection, gets the -1 sentinel, and feeds it to `Square::from_i32`
unchecked, so `rook(A1, empty)` panics (`none`) instead of returning the
unobstructed rays. -/
theorem rook_a1_empty_panics : rook Square.A1 0 = none := by decide

/-- C3: table construction does not populate all 64 squares.  The loop
`Square::iter().take(63)` stops before H8 (discriminant 63), so every H8
entry of the constructed tables keeps the default-empty bitboard 0, not the
real attack data (a correct king entry for H8 would be {G7, H7, G8} and each
ray entry along an inboard direction would be nonempty). -/
theorem attacks_new_h8_default_empty :
    kingTable Square.H8.toIndex = 0 ∧ knightTable Square.H8.toIndex = 0 ∧
    whitePawnTable Square.H8.toIndex = 0 ∧ blackPawnTable Square.H8.toIndex = 0 ∧
    ((List.range 8).all fun di => raysTable di Square.H8.toIndex == 0) = true := by
  decide

/-- C4: the knight table is not the union of the 8 one-step leaps.  The loop
body assigns (`=`, not `|=`) `bb.fill_all(&kdir) & !bb`, so only the last
iteration (direction NNW, a repeated multi-step fill) survives; from A1 the
single NNW step wraps onto the H file and is masked away, leaving the entry
empty, so `knight(A1, empty)` returns the empty bitboard instead of the
claimed {B3, C2}. -/
theorem knight_a1_empty_board : knight Square.A1 0 = some 0 := by decide

/-- C5: the stored white-pawn attack bitboard for A2 is {A2, B3} = 2^8 + 2^17
rather than the claimed plain forward-diagonal destination set {B3}:
`fill_one` returns the union of the origin board with its shifted copy and
the pawn lines, unlike the king and ray lines, never mask with `& !bb`, so
the entry contains the square itself. -/
theorem white_pawn_a2_contains_itself :
    whitePawnTable Square.A2.toIndex = 2 ^ 8 + 2 ^ 17 := by decide

/-- C6 counterexample: `fill_all(singleton(A1), N)` does contain A1 itself
(bit 0), refuting the claim that the fill excludes the origin square. -/
theorem fill_all_contains_origin :
    Nat.testBit (fill_all Square.A1.bitboard RayDirection.N) Square.A1.toIndex = true := by
  decide

/-- C8: `Attacks::pawns` is `todo!()`: it panics (modelled `none`) for every
square and blocker bitboard and never produces an attack bitboard. -/
theorem pawns_always_panics :
    ∀ (sq : Square) (blockers : Nat), pawns sq blockers = none := by
  intro sq blockers
  rfl

/-- C9: the king and knight queries are total: every one of the 64 `Square`
variants converts to an in-range array index (`to_usize` yields
`Some(discriminant)` with discriminant below 64), so the `unwrap` in the
`AttackSet` indexing never panics and both queries return a bitboard for
every danger or blocker argument. -/
theorem king_knight_queries_total :
    ∀ (sq : Square) (danger_squares blockers : Nat),
      (∃ i, sq.toUsize = some i ∧ i < 64) ∧
      (king sq danger_squares).isSome = true ∧
      (knight sq blockers).isSome = true := by
  intro sq danger_squares blockers
  cases sq <;> exact ⟨⟨_, rfl, by decide⟩, rfl, rfl⟩

/-! ## Bitscan correctness -/

/-- On the all-ones key of width i+1 the De Bruijn multiply-and-lookup step
returns exactly i, for every bit index. -/
theorem debruijn_pow : ∀ i : Nat, i < 64 → debruijnStep (2 ^ (i + 1) - 1) = (i : Int) := by
  decide

theorem lsbIdx_odd (v : Nat) (h : v % 2 = 1) : lsbIdx v = 0 := by
  have hv : v ≠ 0 := by omega
  unfold lsbIdx
  simp [hv, h]

theorem lsbIdx_even (v : Nat) (h0 : v ≠ 0) (h : v % 2 = 0) :
    lsbIdx v = lsbIdx (v / 2) + 1 := by
  conv_lhs => rw [lsbIdx]
  simp [h0, h]

/-- For a nonzero value, `v ^ (v - 1)` is the all-ones mask reaching up to
and including the least significant set bit. -/
theorem xor_pred_eq : ∀ v : Nat, v ≠ 0 → v ^^^ (v - 1) = 2 ^ (lsbIdx v + 1) - 1 := by
  intro v
  induction v using Nat.strong_induction_on with
  | _ v ih =>
    intro h0
    rcases Nat.mod_two_eq_zero_or_one v with he | ho
    · have hv2 : v / 2 ≠ 0 := by omega
      have ihv := ih (v / 2) (by omega) hv2
      rw [lsbIdx_even v h0 he]
      apply Nat.eq_of_testBit_eq
      intro n
      match n with
      | 0 =>
        rw [Nat.testBit_xor, Nat.testBit_zero, Nat.testBit_zero,
          Nat.testBit_two_pow_sub_one]
        have h2 : (v - 1) % 2 = 1 := by omega
        simp [he, h2]
      | n + 1 =>
        rw [Nat.testBit_xor, Nat.testBit_succ, Nat.testBit_succ,
          Nat.testBit_two_pow_sub_one]
        have hhalf : (v - 1) / 2 = v / 2 - 1 := by omega
        rw [hhalf, ← Nat.testBit_xor, ihv, Nat.testBit_two_pow_sub_one]
        simp only [decide_eq_decide]
        omega
    · rw [lsbIdx_odd v ho]
      apply Nat.eq_of_testBit_eq
      intro n
      match n with
      | 0 =>
        rw [Nat.testBit_xor, Nat.testBit_zero, Nat.testBit_zero,
          Nat.testBit_two_pow_sub_one]
        have h2 : (v - 1) % 2 = 0 := by omega
        simp [ho, h2]
      | n + 1 =>
        rw [Nat.testBit_xor, Nat.testBit_succ, Nat.testBit_succ,
          Nat.testBit_two_pow_sub_one]
        have hhalf : (v - 1) / 2 = v / 2 := by omega
        rw [hhalf]
        have hlt : (0 : Nat) + 1 ≤ n + 1 := by omega
        cases hb : (v / 2).testBit n <;> simp [hb, hlt]

/-- The bit at the least-significant-set-bit index is set. -/
theorem lsbIdx_testBit : ∀ v : Nat, v ≠ 0 → Nat.testBit v (lsbIdx v) = true := by
  intro v
  induction v using Nat.strong_induction_on with
  | _ v ih =>
    intro h0
    rcases Nat.mod_two_eq_zero_or_one v with he | ho
    · have hv2 : v / 2 ≠ 0 := by omega
      rw [lsbIdx_even v h0 he, Nat.testBit_succ]
      exact ih (v / 2) (by omega) hv2
    · rw [lsbIdx_odd v ho, Nat.testBit_zero]
      simp [ho]

/-- No set bit lies below the least-significant-set-bit index. -/
theorem lsbIdx_le : ∀ v : Nat, v ≠ 0 → ∀ j, Nat.testBit v j = true → lsbIdx v ≤ j := by
  intro v
  induction v using Nat.strong_induction_on with
  | _ v ih =>
    intro h0 j hj
    rcases Nat.mod_two_eq_zero_or_one v with he | ho
    · have hv2 : v / 2 ≠ 0 := by omega
      rw [lsbIdx_even v h0 he]
      match j with
      | 0 =>
        rw [Nat.testBit_zero] at hj
        simp [he] at hj
      | j + 1 =>
        rw [Nat.testBit_succ] at hj
        have := ih (v / 2) (by omega) hv2 j hj
        omega
    · rw [lsbIdx_odd v ho]
      omega

/-- The bit at index `log2 v` is set for nonzero `v`. -/
theorem testBit_log2 (v : Nat) (h0 : v ≠ 0) : Nat.testBit v (Nat.log2 v) = true := by
  have h1 : 2 ^ Nat.log2 v ≤ v := Nat.log2_self_le h0
  have h2 : v < 2 ^ (Nat.log2 v + 1) := Nat.lt_log2_self
  rw [Nat.pow_succ] at h2
  have hdiv : v / 2 ^ Nat.log2 v = 1 := Nat.div_eq_of_lt_le (by omega) (by omega)
  rw [Nat.testBit_to_div_mod, hdiv]
  rfl

/-- One `a | (a >> k)` step doubles the window of source bits that a result
bit sees. -/
theorem orStep_window (v a k W : Nat) (hkW : k = W)
    (h : ∀ m, Nat.testBit a m = true ↔ ∃ d, d < W ∧ Nat.testBit v (m + d) = true) :
    ∀ m, Nat.testBit (orStep k a) m = true ↔
      ∃ d, d < W + W ∧ Nat.testBit v (m + d) = true := by
  intro m
  unfold orStep
  rw [Nat.testBit_or, Nat.testBit_shiftRight, Bool.or_eq_true]
  constructor
  · rintro (h1 | h2)
    · rcases (h m).mp h1 with ⟨d, hd, hb⟩
      exact ⟨d, by omega, hb⟩
    · rcases (h (k + m)).mp h2 with ⟨d, hd, hb⟩
      refine ⟨k + d, by omega, ?_⟩
      have he : m + (k + d) = k + m + d := by omega
      rw [he]
      exact hb
  · rintro ⟨d, hd, hb⟩
    rcases Nat.lt_or_ge d W with hlt | hge
    · exact Or.inl ((h m).mpr ⟨d, hlt, hb⟩)
    · refine Or.inr ((h (k + m)).mpr ⟨d - W, by omega, ?_⟩)
      have he : k + m + (d - W) = m + d := by omega
      rw [he]
      exact hb

/-- After the six propagation steps, a result bit is set exactly when some
source bit at most 63 positions above it is set. -/
theorem orDown_window (v : Nat) :
    ∀ m, Nat.testBit (orDown v) m = true ↔
      ∃ d, d < 64 ∧ Nat.testBit v (m + d) = true := by
  have h0 : ∀ m, Nat.testBit v m = true ↔ ∃ d, d < 1 ∧ Nat.testBit v (m + d) = true := by
    intro m
    constructor
    · intro hb
      exact ⟨0, by omega, by simpa using hb⟩
    · rintro ⟨d, hd, hb⟩
      have hd0 : d = 0 := by omega
      subst hd0
      simpa using hb
  have h1 := orStep_window v v 1 1 rfl h0
  have h2 := orStep_window v _ 2 2 rfl h1
  have h4 := orStep_window v _ 4 4 rfl h2
  have h8 := orStep_window v _ 8 8 rfl h4
  have h16 := orStep_window v _ 16 16 rfl h8
  have h32 := orStep_window v _ 32 32 rfl h16
  exact h32

/-- For a nonzero 64-bit value, OR-propagation produces the all-ones mask up
to and including the most significant set bit. -/
theorem orDown_eq (v : Nat) (h0 : v ≠ 0) (hlt : v < 2 ^ 64) :
    orDown v = 2 ^ (Nat.log2 v + 1) - 1 := by
  apply Nat.eq_of_testBit_eq
  intro n
  rw [Nat.testBit_two_pow_sub_one]
  by_cases hn : n ≤ Nat.log2 v
  · have hex : ∃ d, d < 64 ∧ Nat.testBit v (n + d) = true := by
      refine ⟨Nat.log2 v - n, ?_, ?_⟩
      · have hM : Nat.log2 v < 64 := (Nat.log2_lt h0).mpr hlt
        omega
      · have he : n + (Nat.log2 v - n) = Nat.log2 v := by omega
        rw [he]
        exact testBit_log2 v h0
    rw [(orDown_window v n).mpr hex]
    have hlt2 : n < Nat.log2 v + 1 := by omega
    simp [hlt2]
  · have hf : Nat.testBit (orDown v) n = false := by
      cases hb : Nat.testBit (orDown v) n
      · rfl
      · exfalso
        rcases (orDown_window v n).mp hb with ⟨d, hd, hbit⟩
        have hge : 2 ^ (n + d) ≤ v := Nat.testBit_implies_ge hbit
        have h2 : v < 2 ^ (Nat.log2 v + 1) := Nat.lt_log2_self
        have hle : (2 : Nat) ^ (Nat.log2 v + 1) ≤ 2 ^ (n + d) :=
          Nat.pow_le_pow_right (by omega) (by omega)
        omega
    rw [hf, eq_comm, decide_eq_false_iff_not]
    omega

/-- The least-significant-set-bit index of a 64-bit value is below 64. -/
theorem lsbIdx_lt_64 (v : Nat) (h0 : v ≠ 0) (hlt : v < 2 ^ 64) : lsbIdx v < 64 := by
  have h1 := lsbIdx_testBit v h0
  have h2 : 2 ^ lsbIdx v ≤ v := Nat.testBit_implies_ge h1
  by_contra hc
  have h3 : (2 : Nat) ^ 64 ≤ 2 ^ lsbIdx v := Nat.pow_le_pow_right (by omega) (by omega)
  omega

/-- C7: for every nonempty 64-bit bitboard the De Bruijn bitscans return the
indices of the least and most significant set bits, and both return the -1
sentinel on the empty bitboard.  In particular on a single-bit board both
return that index, and on a two-bit board forward returns the smaller and
reverse the larger index. -/
theorem bitscan_spec (bb : Nat) (h : bb < 2 ^ 64) :
    (bb = 0 → bitscan_forward bb = -1 ∧ bitscan_reverse bb = -1) ∧
    (bb ≠ 0 → ∃ lo hi : Nat,
      bitscan_forward bb = (lo : Int) ∧ bitscan_reverse bb = (hi : Int) ∧
      Nat.testBit bb lo = true ∧ (∀ j, Nat.testBit bb j = true → lo ≤ j) ∧
      Nat.testBit bb hi = true ∧ (∀ j, Nat.testBit bb j = true → j ≤ hi)) := by
  constructor
  · intro h0
    subst h0
    exact ⟨rfl, rfl⟩
  · intro h0
    refine ⟨lsbIdx bb, Nat.log2 bb, ?_, ?_, lsbIdx_testBit bb h0, lsbIdx_le bb h0,
      testBit_log2 bb h0, ?_⟩
    · unfold bitscan_forward
      rw [if_neg h0, xor_pred_eq bb h0]
      exact debruijn_pow (lsbIdx bb) (lsbIdx_lt_64 bb h0 h)
    · unfold bitscan_reverse
      rw [if_neg h0, orDown_eq bb h0 h]
      exact debruijn_pow (Nat.log2 bb) ((Nat.log2_lt h0).mpr h)
    · intro j hj
      have hge := Nat.testBit_implies_ge hj
      have h2 : bb < 2 ^ (Nat.log2 bb + 1) := Nat.lt_log2_self
      by_contra hc
      have h3 : (2 : Nat) ^ (Nat.log2 bb + 1) ≤ 2 ^ j := Nat.pow_le_pow_right (by omega) (by omega)
      omega

/-- Witness for C7 at the two-bit board 6 (bits 1 and 2 set): the hypothesis
holds and the scans return 1 and 2. -/
theorem bitscan_spec_witness :
    ((6 : Nat) = 0 → bitscan_forward 6 = -1 ∧ bitscan_reverse 6 = -1) ∧
    ((6 : Nat) ≠ 0 → ∃ lo hi : Nat,
      bitscan_forward 6 = (lo : Int) ∧ bitscan_reverse 6 = (hi : Int) ∧
      Nat.testBit 6 lo = true ∧ (∀ j, Nat.testBit 6 j = true → lo ≤ j) ∧
      Nat.testBit 6 hi = true ∧ (∀ j, Nat.testBit 6 j = true → j ≤ hi)) :=
  bitscan_spec 6 (by norm_num)

/-! ## flip_vertical correctness -/

theorem k1_bit : ∀ p : Nat, p < 64 → Nat.testBit FLIP_K1 p = decide (p % 16 < 8) := by
  decide

theorem k2_bit : ∀ p : Nat, p < 64 → Nat.testBit FLIP_K2 p = decide (p % 32 < 16) := by
  decide

theorem xor8_arith : ∀ p : Nat, p < 64 →
    p ^^^ 8 = if p % 16 < 8 then p + 8 else p - 8 := by decide

theorem xor16_arith : ∀ p : Nat, p < 64 →
    p ^^^ 16 = if p % 32 < 16 then p + 16 else p - 16 := by decide

theorem xor32_arith : ∀ p : Nat, p < 64 →
    p ^^^ 32 = if p < 32 then p + 32 else p - 32 := by decide

theorem xor8_lt : ∀ p : Nat, p < 64 → p ^^^ 8 < 64 := by decide

theorem xor16_lt : ∀ p : Nat, p < 64 → p ^^^ 16 < 64 := by decide

theorem xor32_lt : ∀ p : Nat, p < 64 → p ^^^ 32 < 64 := by decide

theorem xor_chain_56 : ∀ p : Nat, p < 64 → ((p ^^^ 32) ^^^ 16) ^^^ 8 = p ^^^ 56 := by
  decide

theorem xor56_self : ∀ p : Nat, p < 64 → (p ^^^ 56) ^^^ 56 = p := by decide

theorem xor56_lt : ∀ p : Nat, p < 64 → p ^^^ 56 < 64 := by decide

/-- Bits at or above position 64 of a 64-bit value are clear. -/
theorem testBit_high (x n : Nat) (hx : x < 2 ^ 64) (hn : 64 ≤ n) :
    Nat.testBit x n = false := by
  cases hb : Nat.testBit x n
  · rfl
  · exfalso
    have hge : 2 ^ n ≤ x := Nat.testBit_implies_ge hb
    have h3 : (2 : Nat) ^ 64 ≤ 2 ^ n := Nat.pow_le_pow_right (by omega) hn
    omega

/-- The byte-swap step moves bit `p` to bit `p xor 8`. -/
theorem swap8_testBit (x p : Nat) (hp : p < 64) :
    Nat.testBit (swap8 x) p = Nat.testBit x (p ^^^ 8) := by
  rw [xor8_arith p hp]
  unfold swap8 wshl
  rw [Nat.testBit_or, Nat.testBit_and, Nat.testBit_shiftRight,
    Nat.testBit_mod_two_pow, Nat.testBit_shiftLeft, Nat.testBit_and]
  rw [k1_bit p hp]
  by_cases hb : p % 16 < 8
  · have hmask : p < 8 ∨ Nat.testBit FLIP_K1 (p - 8) = false := by
      rcases Nat.lt_or_ge p 8 with hp8 | hp8
      · exact Or.inl hp8
      · refine Or.inr ?_
        rw [k1_bit (p - 8) (by omega)]
        simp only [decide_eq_false_iff_not]
        omega
    rcases hmask with hp8 | hm
    · have hge : ¬ (8 : Nat) ≤ p := by omega
      simp [hb, hge, hp8, Nat.add_comm 8 p]
    · simp [hb, hm, Nat.add_comm 8 p]
  · have hp8 : (8 : Nat) ≤ p := by omega
    have hm : Nat.testBit FLIP_K1 (p - 8) = true := by
      rw [k1_bit (p - 8) (by omega)]
      simp only [decide_eq_true_eq]
      omega
    simp [hb, hm, hp8, hp]

/-- The word-swap step moves bit `p` to bit `p xor 16`. -/
theorem swap16_testBit (x p : Nat) (hp : p < 64) :
    Nat.testBit (swap16 x) p = Nat.testBit x (p ^^^ 16) := by
  rw [xor16_arith p hp]
  unfold swap16 wshl
  rw [Nat.testBit_or, Nat.testBit_and, Nat.testBit_shiftRight,
    Nat.testBit_mod_two_pow, Nat.testBit_shiftLeft, Nat.testBit_and]
  rw [k2_bit p hp]
  by_cases hb : p % 32 < 16
  · have hmask : p < 16 ∨ Nat.testBit FLIP_K2 (p - 16) = false := by
      rcases Nat.lt_or_ge p 16 with hp16 | hp16
      · exact Or.inl hp16
      · refine Or.inr ?_
        rw [k2_bit (p - 16) (by omega)]
        simp only [decide_eq_false_iff_not]
        omega
    rcases hmask with hp16 | hm
    · have hge : ¬ (16 : Nat) ≤ p := by omega
      simp [hb, hge, hp16, Nat.add_comm 16 p]
    · simp [hb, hm, Nat.add_comm 16 p]
  · have hp16 : (16 : Nat) ≤ p := by omega
    have hm : Nat.testBit FLIP_K2 (p - 16) = true := by
      rw [k2_bit (p - 16) (by omega)]
      simp only [decide_eq_true_eq]
      omega
    simp [hb, hm, hp16, hp]

/-- The 32-bit rotation moves bit `p` to bit `p xor 32` on 64-bit values. -/
theorem rotl32_testBit (x p : Nat) (hx : x < 2 ^ 64) (hp : p < 64) :
    Nat.testBit (rotl32 x) p = Nat.testBit x (p ^^^ 32) := by
  rw [xor32_arith p hp]
  unfold rotl32 wshl
  rw [Nat.testBit_or, Nat.testBit_mod_two_pow, Nat.testBit_shiftLeft,
    Nat.testBit_shiftRight]
  by_cases h32 : p < 32
  · have hge : ¬ (32 : Nat) ≤ p := by omega
    simp [h32, hge, Nat.add_comm 32 p]
  · have hge : (32 : Nat) ≤ p := by omega
    have hhi : Nat.testBit x (32 + p) = false := testBit_high x (32 + p) hx (by omega)
    simp [h32, hge, hp, hhi]

theorem swap8_lt (x : Nat) : swap8 x < 2 ^ 64 := by
  unfold swap8 wshl
  apply Nat.or_lt_two_pow
  · exact Nat.lt_of_le_of_lt Nat.and_le_right (by norm_num [FLIP_K1])
  · exact Nat.mod_lt _ (by norm_num)

theorem swap16_lt (x : Nat) : swap16 x < 2 ^ 64 := by
  unfold swap16 wshl
  apply Nat.or_lt_two_pow
  · exact Nat.lt_of_le_of_lt Nat.and_le_right (by norm_num [FLIP_K2])
  · exact Nat.mod_lt _ (by norm_num)

theorem rotl32_lt (x : Nat) (hx : x < 2 ^ 64) : rotl32 x < 2 ^ 64 := by
  unfold rotl32 wshl
  apply Nat.or_lt_two_pow
  · exact Nat.mod_lt _ (by norm_num)
  · refine Nat.lt_of_le_of_lt ?_ hx
    rw [Nat.shiftRight_eq_div_pow]
    exact Nat.div_le_self x (2 ^ 32)

theorem flip_vertical_lt (x : Nat) : flip_vertical x < 2 ^ 64 :=
  rotl32_lt _ (swap16_lt _)

/-- The composite of the three steps moves bit `p` to bit `p xor 56`, i.e.
flips the three rank bits of the index. -/
theorem flip_vertical_testBit (x p : Nat) (hp : p < 64) :
    Nat.testBit (flip_vertical x) p = Nat.testBit x (p ^^^ 56) := by
  have h2 : swap16 (swap8 x) < 2 ^ 64 := swap16_lt (swap8 x)
  unfold flip_vertical
  rw [rotl32_testBit _ p h2 hp, swap16_testBit _ _ (xor32_lt p hp),
    swap8_testBit _ _ (xor16_lt _ (xor32_lt p hp)), xor_chain_56 p hp]

theorem idx_xor56 : ∀ f r : Fin 8, (8 * r.val + f.val) ^^^ 56 = 8 * (7 - r.val) + f.val := by
  decide

/-- C10: flip_vertical is the self-inverse rank mirror: square (f, r) is in
the flipped board exactly when square (f, 7 - r) is in the original, and
applying it twice is the identity on 64-bit boards. -/
theorem flip_vertical_spec (bb : Nat) (h : bb < 2 ^ 64) :
    (∀ f r : Fin 8, Nat.testBit (flip_vertical bb) (8 * r.val + f.val) =
      Nat.testBit bb (8 * (7 - r.val) + f.val)) ∧
    flip_vertical (flip_vertical bb) = bb := by
  constructor
  · intro f r
    have hfv := f.isLt
    have hrv := r.isLt
    have hp : 8 * r.val + f.val < 64 := by omega
    rw [flip_vertical_testBit bb _ hp, idx_xor56 f r]
  · apply Nat.eq_of_testBit_eq
    intro n
    by_cases hn : n < 64
    · rw [flip_vertical_testBit _ n hn,
        flip_vertical_testBit bb _ (xor56_lt n hn), xor56_self n hn]
    · rw [testBit_high _ n (flip_vertical_lt _) (by omega),
        testBit_high bb n h (by omega)]

/-- Witness for C10 at the single-bit board A1: the hypothesis holds, A1 maps
to A8 and the double flip is the identity. -/
theorem flip_vertical_spec_witness :
    (∀ f r : Fin 8, Nat.testBit (flip_vertical 1) (8 * r.val + f.val) =
      Nat.testBit 1 (8 * (7 - r.val) + f.val)) ∧
    flip_vertical (flip_vertical 1) = 1 :=
  flip_vertical_spec 1 (by norm_num)

set_option maxHeartbeats 4000000 in
/-- C6 (amended): the fill includes the origin square.  For every square S
and ray direction D, `fill_all(singleton(S), D)` equals the union of the
singleton of S with exactly the squares strictly between S and the board
edge along D: it contains S itself, every strictly-between square, and
nothing else. -/
theorem fill_all_ray_spec (sq : Square) (d : RayDirection) :
    fill_all sq.bitboard d = sq.bitboard ||| raySpecSet sq d := by
  cases sq <;> cases d <;> decide
